import Mathlib

/-!
Verification of the salsacsv library (src/index.js): a shallow embedding of
the CSV encoder (`toCSV`), decoder (`fromCSV`), the regex-driven tokenizer
(`csvToArray`), the column normalizer (`detectColumn` and friends) and the
cell-label helper (`cellLabel`, `columnLabel`), together with theorems about
the claims of the specification.

Modelling conventions:
* JavaScript numbers are modelled as integers (`Int`); no claim depends on
  floating-point formatting.
* JavaScript object and array values are collapsed into one opaque
  constructor `JsVal.objVal`: the library never inspects object contents
  (the encoder clears them to empty cells; only `typeof` is consulted).
* A tokenizer cell is `Option String`; `none` models the JavaScript value
  `undefined`, which the tokenizer pushes for an empty quoted field `""`
  (because `matches[2]` is the empty string, which is falsy) and which array
  indexing yields beyond the end of a row.
* The delimiter is a single character (the library's regex only supports a
  single escaped character; every claim uses `','`).
* The tokenizer's `exec` loop does not terminate on some inputs (a
  zero-length regex match at position 0 repeats forever, since `exec` does
  not advance `lastIndex` on an empty match); the embedding returns `none`
  (`csvToArray`) or `DecodeResult.diverge` (`fromCSV`) for those inputs.
  The fuel given to the loop is otherwise sufficient, because every
  non-initial match consumes at least the one-character delimiter.
-/

namespace SalsaCSV

/-- JavaScript runtime values as they occur in this library. -/
inductive JsVal where
  | str (s : String)
  | num (n : Int)
  | bool (b : Bool)
  | null
  | undef
  | objVal
deriving DecidableEq, Repr

/-- A record: an insertion-ordered mapping from field name to value. -/
abbrev Record := List (String × JsVal)

/-- A tokenizer cell: `none` models the JavaScript value `undefined`. -/
abbrev Cell := Option String

/-- JavaScript property read `obj[key]`: first binding, else `undefined`. -/
def objGet (obj : Record) (k : String) : JsVal :=
  match obj.find? (fun p => p.1 == k) with
  | some p => p.2
  | none => JsVal.undef

/-- JavaScript property write `obj[key] = v`: update in place keeping the
original insertion position, else append. -/
def setKey (obj : Record) (k : String) (v : JsVal) : Record :=
  if obj.any (fun p => p.1 == k) then
    obj.map (fun p => if p.1 == k then (k, v) else p)
  else
    obj ++ [(k, v)]

/-- Context passed to a column's `converter` by `toCSV`. -/
structure ConvCtx where
  obj : Record
  key : Option String
  row : Nat
  column : Nat

/-- Context passed to a column's `parser` by `fromCSV`. -/
structure ParseCtx where
  key : String
  row : Nat
  column : Nat

/-- A normalized column descriptor (the `Column` typedef of the source). -/
structure Column where
  header : Option String := none
  key : Option String := none
  required : Bool := false
  converter : Option (JsVal → ConvCtx → JsVal) := none
  parser : Option (String → ParseCtx → JsVal) := none
  parseEmpty : Bool := false

/-- A caller-supplied column: a bare string, a descriptor object, or any
other value (`null`, a number, ...), which normalizes to an inert column. -/
inductive ColumnInput where
  | strIn (s : String)
  | objIn (c : Column)
  | nullIn

/-- `detectColumn`: a non-empty string becomes `{key}`, an object passes
through unchanged, anything else is invalid (`null`). -/
def detectColumn : ColumnInput → Option Column
  | .strIn s => if s.length > 0 then some {key := some s} else none
  | .objIn c => some c
  | .nullIn => none

/-- The options object of `toCSV` and `fromCSV`. -/
structure CsvOptions where
  includeHeader : Bool := false
  includeEmptyValues : Bool := false
  delimiter : Option Char := none

/-- `options.delimiter || ','`. -/
def CsvOptions.delim (o : CsvOptions) : Char := o.delimiter.getD ','

/-- The `replace(/"/g, '""')` step of `escapeCSV`. -/
def escapeQuotes : List Char → List Char
  | [] => []
  | c :: r => if c = '"' then '"' :: '"' :: escapeQuotes r else c :: escapeQuotes r

/-- `escapeCSV`: wrap in double quotes, doubling embedded double quotes. -/
def escapeCSV (s : String) : String :=
  "\"" ++ String.mk (escapeQuotes s.data) ++ "\""

/-- `c` is one of the two separators accepted by the date heuristic. -/
def isSep (c : Char) : Bool := c = '-' || c = '/'

/-- The regex `/^\d+[-\/]\d+[-\/]\d+$/` of the escaping rule. -/
def dateLikeChars (s : List Char) : Bool :=
  match s.span Char.isDigit with
  | ([], _) => false
  | (_ :: _, rest1) =>
    match rest1 with
    | [] => false
    | sep1 :: r1 =>
      isSep sep1 &&
      (match r1.span Char.isDigit with
       | ([], _) => false
       | (_ :: _, rest2) =>
         match rest2 with
         | [] => false
         | sep2 :: r2 =>
           isSep sep2 &&
           (match r2.span Char.isDigit with
            | ([], _) => false
            | (_ :: _, []) => true
            | (_ :: _, _ :: _) => false))

/-- The regex `/^=/` of the escaping rule. -/
def startsEq : List Char → Bool
  | '=' :: _ => true
  | _ => false

/-- The `shouldEscape` test of `toCSV`: non-empty string, not a formula,
not date-like. -/
def shouldEscape (s : String) : Bool :=
  s.length > 0 && !startsEq s.data && !dateLikeChars s.data

/-- The tail of `toCSV`'s `processColumn`: clearing (`null`, `undefined`
and objects become the empty cell), escaping, and the default string
conversion applied by `Array.prototype.join`. -/
def renderCell (v : JsVal) : String :=
  match v with
  | .null => ""
  | .undef => ""
  | .objVal => ""
  | .str s => if shouldEscape s then escapeCSV s else s
  | .num n => toString n
  | .bool b => if b then "true" else "false"

/-! ## Tokenizer (`csvToArray`)

The source drives the regex
`('(\\' + delimiter + '|\r?\n|\r|^)' + '(?:"([^"]*(?:""[^"]*)*)"|' + '([^"\\' + delimiter + '\r\n]*))'`
through a global `exec` loop.  The embedding below implements exactly the
backtracking behaviour of that pattern. -/

/-- `replace(/""/g, '"')`: collapse doubled quotes left to right. -/
def unescapePairs : List Char → List Char
  | [] => []
  | c :: r =>
    if c = '"' then
      match r with
      | [] => [c]
      | c2 :: r2 => if c2 = '"' then '"' :: unescapePairs r2 else c :: unescapePairs (c2 :: r2)
    else c :: unescapePairs r

/-- Match `[^"]*(?:""[^"]*)*"` (the body and closing quote of a quoted
field) against the characters following the opening quote.  Returns the raw
content (doubled quotes still doubled) and the remainder after the closing
quote, or `none` when no closing quote exists.  A doubled quote is consumed
as content when the remainder can still be closed, otherwise the first of
the two quotes closes the field (regex backtracking). -/
def quotedScan : List Char → Option (List Char × List Char)
  | [] => none
  | c :: r =>
    if c = '"' then
      match r with
      | [] => some ([], [])
      | c2 :: r2 =>
        if c2 = '"' then
          match quotedScan r2 with
          | some (content, rest) => some ('"' :: '"' :: content, rest)
          | none => some ([], '"' :: r2)
        else some ([], c2 :: r2)
    else
      match quotedScan r with
      | some (content, rest) => some (c :: content, rest)
      | none => none

/-- Match the unquoted-field pattern `[^"<delim>\r\n]*`: the maximal run of
ordinary characters, and the remainder. -/
def takeRun (d : Char) : List Char → List Char × List Char
  | [] => ([], [])
  | c :: r =>
    if c = '"' || c = d || c = '\r' || c = '\n' then ([], c :: r)
    else
      match takeRun d r with
      | (run, rest) => (c :: run, rest)

/-- One successful regex match: the text captured by the delimiter group,
the value the loop body pushes for the field, and the remaining input. -/
structure TokMatch where
  delimTok : List Char
  cell : Cell
  rest : List Char
deriving Repr

/-- The delimiter group `(<delim>|\r?\n|\r|^)`, alternatives in order;
`atStart` tells whether the zero-width `^` alternative can apply. -/
def matchDelim (d : Char) (s : List Char) (atStart : Bool) : Option (List Char × List Char) :=
  match s with
  | [] => if atStart then some ([], []) else none
  | c :: r =>
    if c = d then some ([d], r)
    else if c = '\r' then
      match r with
      | '\n' :: r2 => some (['\r', '\n'], r2)
      | _ => some (['\r'], r)
    else if c = '\n' then some (['\n'], r)
    else if atStart then some ([], c :: r)
    else none

/-- The field group `(?:"(...)"|(...))` plus the loop body's choice of
value: a non-empty quoted capture is unescaped (`matches[2]` truthy), an
empty quoted capture is falsy so `matches[3]` — `undefined` — is pushed,
and otherwise the unquoted capture is pushed as-is. -/
def matchField (d : Char) (s : List Char) : Cell × List Char :=
  match s with
  | '"' :: r =>
    match quotedScan r with
    | some (content, rest) =>
      if content = [] then (none, rest)
      else (some (String.mk (unescapePairs content)), rest)
    | none => (some "", s)
  | _ =>
    match takeRun d s with
    | (run, rest) => (some (String.mk run), rest)

/-- Attempt the whole pattern at the current position. -/
def tryMatchAt (d : Char) (s : List Char) (atStart : Bool) : Option TokMatch :=
  match matchDelim d s atStart with
  | none => none
  | some (g1, s1) =>
    match matchField d s1 with
    | (cell, rest) => some ⟨g1, cell, rest⟩

/-- `exec` semantics: find the first position at or after the current one
where the pattern matches. -/
def findMatch (d : Char) : List Char → Bool → Option TokMatch
  | [], atStart => tryMatchAt d [] atStart
  | c :: r, atStart =>
    match tryMatchAt d (c :: r) atStart with
    | some m => some m
    | none => findMatch d r false

/-- `results[results.length - 1].push(value)`. -/
def pushLast : List (List Cell) → Cell → List (List Cell)
  | [], c => [[c]]
  | [row], c => [row ++ [c]]
  | row :: rows, c => row :: pushLast rows c

/-- Process one match: start a new row when the matched delimiter is
non-empty and differs from the field delimiter, then push the value. -/
def pushMatch (d : Char) (acc : List (List Cell)) (m : TokMatch) : List (List Cell) :=
  let acc1 := if m.delimTok.length > 0 && m.delimTok != [d] then acc ++ [[]] else acc
  pushLast acc1 m.cell

/-- The `while (matches = objPattern.exec(str))` loop, after the first
iteration.  Every match here consumes at least its one-character delimiter,
so fuel `s.length + 1` never runs out. -/
def execLoop (d : Char) : Nat → List Char → List (List Cell) → Option (List (List Cell))
  | 0, _, _ => none
  | fuel + 1, s, acc =>
    match findMatch d s false with
    | none => some acc
    | some m => execLoop d fuel m.rest (pushMatch d acc m)

/-- `csvToArray`.  The first match always succeeds at position 0 (the `^`
alternative is zero-width and the unquoted field may be empty).  When that
first match has length zero, `exec` never advances `lastIndex` and the
JavaScript loop runs forever; the embedding returns `none` for that
non-termination. -/
def csvToArray (str : String) (d : Char) : Option (List (List Cell)) :=
  match tryMatchAt d str.data true with
  | none => some [[]]
  | some m =>
    if m.rest.length = str.data.length then none
    else execLoop d (m.rest.length + 1) m.rest (pushMatch d [[]] m)

/-! ## Column detection -/

/-- Feed a tokenizer cell back into `detectColumn` (an `undefined` cell is
neither a string nor a non-null object). -/
def cellToColumnInput : Cell → ColumnInput
  | none => .nullIn
  | some s => .strIn s

/-- `detectColumnsFromCSV`: tokenize the first physical line and use its
cells as header names, or synthesize `col1, col2, ...`.  Returns `none`
when the tokenizer diverges on the first line. -/
def detectColumnsFromCSV (csvStr : String) (opts : CsvOptions) : Option (List (Option Column)) :=
  let firstLine := String.mk (csvStr.data.takeWhile (fun c => c != '\n'))
  match csvToArray firstLine opts.delim with
  | none => none
  | some arr =>
    let split := arr.headD []
    some (if opts.includeHeader then
            split.map (fun c => detectColumn (cellToColumnInput c))
          else
            (List.range split.length).map (fun i => detectColumn (.strIn ("col" ++ toString (i + 1)))))

/-- `detectColumnsFromJSON`: columns from the keys of the first record; when
a header is requested each synthesized column's header is its key. -/
def detectColumnsFromJSON (rows : List Record) (opts : CsvOptions) : List (Option Column) :=
  let keys := (rows.headD []).map Prod.fst
  keys.map (fun k =>
    match detectColumn (.strIn k) with
    | none => none
    | some c => some (if opts.includeHeader then {c with header := some k} else c))

/-! ## Encoder (`toCSV`) -/

/-- `includeHeader ? 1 : 0`. -/
def startIndex (opts : CsvOptions) : Nat := if opts.includeHeader then 1 else 0

/-- `toCSV`'s `processColumn`: an invalid column renders an empty cell;
otherwise read `obj[key]` (an absent key reads property `"undefined"`, as
JavaScript stringifies the key `undefined`), apply the converter with its
context, then clear / escape / stringify. -/
def processColumnEnc (opts : CsvOptions) (obj : Record) (rowIndex : Nat)
    (col : Option Column) (columnIndex : Nat) : String :=
  match col with
  | none => ""
  | some c =>
    let v0 := objGet obj (c.key.getD "undefined")
    let v1 :=
      match c.converter with
      | some f => f v0 {obj := obj, key := c.key, row := rowIndex + startIndex opts + 1, column := columnIndex}
      | none => v0
    renderCell v1

/-- `Array.prototype.join`. -/
def joinSep (sep : String) : List String → String
  | [] => ""
  | [x] => x
  | x :: xs => x ++ sep ++ joinSep (sep) xs

/-- `toCSV`'s `getLine`: one text line from one record. -/
def getLine (cols : List (Option Column)) (opts : CsvOptions) (obj : Record) (rowIndex : Nat) : String :=
  joinSep (String.singleton opts.delim)
    (cols.enum.map (fun p => processColumnEnc opts obj rowIndex p.2 p.1))

/-- One cell of the header line: the escaped header when it is a non-empty
string, else an empty cell. -/
def headerCell (col : Option Column) : String :=
  match col with
  | some c =>
    match c.header with
    | some h => if h.length > 0 then escapeCSV h else ""
    | none => ""
  | none => ""

/-- `toCSV`. -/
def toCSV (rows : List Record) (columns : Option (List ColumnInput)) (opts : CsvOptions) : String :=
  let cols :=
    match columns with
    | none => detectColumnsFromJSON rows opts
    | some cs => cs.map detectColumn
  let lines := rows.enum.map (fun p => getLine cols opts p.2 p.1)
  let lines :=
    if opts.includeHeader then
      joinSep (String.singleton opts.delim) (cols.map headerCell) :: lines
    else lines
  joinSep "\n" lines

/-! ## Decoder (`fromCSV`) -/

/-- `replace(/\n{2,}/g, '\n')`: collapse every run of consecutive line
breaks to a single one (`prevNL` records whether the previous character was
an already-emitted line break). -/
def collapseNLAux (prevNL : Bool) : List Char → List Char
  | [] => []
  | c :: r =>
    if c = '\n' then
      if prevNL then collapseNLAux true r else '\n' :: collapseNLAux true r
    else c :: collapseNLAux false r

/-- `replace(/(\n$|^\n)/, '')`: the pattern has no global flag, so only the
leftmost match is removed — one leading line break when the text starts
with one, otherwise one trailing line break when the text ends with one. -/
def stripOneNL (s : List Char) : List Char :=
  match s with
  | '\n' :: r => r
  | _ => if s.getLast? = some '\n' then s.dropLast else s

/-- The pre-processing `fromCSV` applies to its input before tokenizing. -/
def preprocess (s : String) : String :=
  String.mk (stripOneNL (collapseNLAux false s.data))

/-- `value == null || value === ''`. -/
def jsIsEmpty (v : JsVal) : Bool :=
  match v with
  | .null => true
  | .undef => true
  | .str s => s == ""
  | _ => false

/-- The value of one cell after the (conditional) parser call of
`fromCSV`'s `processColumn`: the parser runs iff the cell exists on the
line, a parser is present, and either `parseEmpty` is set or the cell is a
non-empty string. -/
def postParseVal (opts : CsvOptions) (line : List Cell) (rowIndex : Nat)
    (c : Column) (k : String) (columnIndex : Nat) : JsVal :=
  match (line.get? columnIndex).getD none, c.parser with
  | some s, some p =>
    if c.parseEmpty || s != "" then
      p s {key := k, row := rowIndex + startIndex opts + 1, column := columnIndex}
    else JsVal.str s
  | some s, none => JsVal.str s
  | none, _ => JsVal.undef

/-- The error message thrown for a required column with an empty value. -/
def requiredMsg (k : String) : String := "Required column " ++ k ++ " is empty"

/-- The body of `fromCSV`'s `processColumn` for a column whose key is
`keyOpt` (skipped when the key is absent or empty — the column is not
valid): compute the post-parse value, throw for a required empty value,
and assign the value unless it is empty and empty values are excluded. -/
def processColumnDecKey (opts : CsvOptions) (line : List Cell) (rowIndex : Nat)
    (result : Record) (c : Column) : Option String → Nat → Except String Record
  | none, _ => .ok result
  | some k, columnIndex =>
    if k = "" then .ok result
    else
      let cellValue := postParseVal opts line rowIndex c k columnIndex
      let isEmpty := jsIsEmpty cellValue
      if c.required && isEmpty then .error (requiredMsg k)
      else if opts.includeEmptyValues || !isEmpty then .ok (setKey result k cellValue)
      else .ok result

/-- `fromCSV`'s `processColumn`: a `null` column is skipped, any other is
processed according to the truthiness of its key. -/
def processColumnDec (opts : CsvOptions) (line : List Cell) (rowIndex : Nat)
    (result : Record) : Option Column → Nat → Except String Record
  | none, _ => .ok result
  | some c, columnIndex => processColumnDecKey opts line rowIndex result c c.key columnIndex

/-- `columns.reduce(processColumn, {})`, carrying the column index. -/
def getRowAux (opts : CsvOptions) (line : List Cell) (rowIndex : Nat) :
    List (Option Column) → Nat → Record → Except String Record
  | [], _, acc => .ok acc
  | col :: cs, columnIndex, acc =>
    match processColumnDec opts line rowIndex acc col columnIndex with
    | .error e => .error e
    | .ok acc2 => getRowAux opts line rowIndex cs (columnIndex + 1) acc2

/-- `fromCSV`'s `getRow`. -/
def getRow (cols : List (Option Column)) (opts : CsvOptions) (line : List Cell) (rowIndex : Nat) :
    Except String Record :=
  getRowAux opts line rowIndex cols 0 []

/-- `csvLines.map(getRow)`, with a thrown error aborting the whole map. -/
def mapRows (cols : List (Option Column)) (opts : CsvOptions) :
    List (List Cell) → Nat → Except String (List Record)
  | [], _ => .ok []
  | line :: rest, rowIndex =>
    match getRow cols opts line rowIndex with
    | .error e => .error e
    | .ok r =>
      match mapRows cols opts rest (rowIndex + 1) with
      | .error e => .error e
      | .ok rs => .ok (r :: rs)

/-- Observable outcome of a `fromCSV` call: a record list, a thrown
`Error`, a thrown `TypeError` (calling `.map` on a missing column list), or
non-termination inside the tokenizer. -/
inductive DecodeResult where
  | ok (rows : List Record)
  | err (msg : String)
  | typeError
  | diverge
deriving DecidableEq, Repr

/-- The tokenize-and-map tail of `fromCSV`, after columns are resolved. -/
def fromCSVWithCols (s : String) (cols : List (Option Column)) (opts : CsvOptions) : DecodeResult :=
  match csvToArray s opts.delim with
  | none => .diverge
  | some arr =>
    match mapRows cols opts (arr.drop (startIndex opts)) 0 with
    | .error e => .err e
    | .ok rows => .ok rows

/-- `fromCSV`.  Columns are detected from the text only when none were
given *and* the pre-processed text is non-empty; otherwise the given
`columns` value has `.map` called on it, which is a `TypeError` when it is
`null`/`undefined`. -/
def fromCSV (csvStr : String) (columns : Option (List ColumnInput)) (opts : CsvOptions) : DecodeResult :=
  let s := preprocess csvStr
  if columns.isNone && s.length > 0 then
    match detectColumnsFromCSV s opts with
    | none => .diverge
    | some cols => fromCSVWithCols s cols opts
  else
    match columns with
    | none => .typeError
    | some cs => fromCSVWithCols s (cs.map detectColumn) opts

/-! ## Cell labels -/

/-- The alphabet used by `columnLabel`. -/
def lettersStr : String := "ABCDEFGHIJKLMNOPQRSTUVWXYZ"

/-- JavaScript `String.prototype.charAt`: one-character string, or the
empty string out of range. -/
def charAt (s : String) (i : Nat) : String :=
  match s.data[i]? with
  | some c => String.singleton c
  | none => ""

/-- `columnLabel`: recursive spreadsheet column lettering. -/
def columnLabel (columnNumber : Nat) : String :=
  let letter := charAt lettersStr (columnNumber % 26)
  let concat := columnNumber / 26
  if concat > 0 then columnLabel (concat - 1) ++ letter else letter
termination_by columnNumber
decreasing_by
  have h := Nat.div_le_self columnNumber 26
  omega

/-- `cellLabel`: column letters followed by the row number rendered as
supplied. -/
def cellLabel (rowNumber : Nat) (columnNumber : Nat) : String :=
  columnLabel columnNumber ++ toString rowNumber

/-! ## Specification-side definitions

These definitions follow the specification's own words and are compared
with the embedded code. -/

/-- The specification's escaping condition, from its words: a non-empty
string that does not start with `=` and does not match the pattern
`digits[-\/]digits[-\/]digits`. -/
def claimShouldEscape (s : String) : Bool :=
  (s != "") && !(s.data.head? == some '=') && !dateLikeChars s.data

/-- The letter for one bijective base-26 digit `k` (`0 ↦ A`, ...,
`25 ↦ Z`), written independently of the code's alphabet string. -/
def specLetter (k : Nat) : String := String.singleton (Char.ofNat (65 + k))

/-- Bijective base-26 numeral of the positive number `m` (so `1 ↦ A`,
`26 ↦ Z`, `27 ↦ AA`, ...): there is no zero letter, each position holds
`(m - 1) % 26` and the remaining positions encode `(m - 1) / 26`. -/
def bijBase26 (m : Nat) : String :=
  if m = 0 then "" else bijBase26 ((m - 1) / 26) ++ specLetter ((m - 1) % 26)
termination_by m
decreasing_by
  have h := Nat.div_le_self (m - 1) 26
  omega

/-- The specification's column lettering: the bijective base-26 numeral of
`column + 1`. -/
def specColumnLabel (col : Nat) : String := bijBase26 (col + 1)

/-! ## Helper lemmas -/

/-- Rebuilding a string from its character list is the identity. -/
theorem string_mk_data : ∀ s : String, String.mk s.data = s := by
  intro s
  cases s
  rfl

/-- Appending the empty string on the left is the identity. -/
theorem empty_string_append : ∀ s : String, "" ++ s = s := by
  intro s
  cases s
  rfl

/-- The characters of an appended string. -/
theorem string_data_append : ∀ a b : String, (a ++ b).data = a.data ++ b.data :=
  fun _ _ => rfl

/-- The code's `charAt` on the alphabet agrees with the specification's
letter function on every digit. -/
theorem charAt_letters : ∀ k, k < 26 → charAt lettersStr k = specLetter k := by decide

/-- The code's recursive `columnLabel` computes the specification's
bijective base-26 numeral of `col + 1`. -/
theorem columnLabel_eq_spec : ∀ col : Nat, columnLabel col = specColumnLabel col := by
  intro col
  induction col using Nat.strong_induction_on with
  | _ col ih =>
    rw [columnLabel, specColumnLabel, bijBase26]
    have hmod := Nat.mod_lt col (show 0 < 26 by decide)
    rw [if_neg (by omega : ¬ col + 1 = 0)]
    simp only [Nat.add_sub_cancel]
    rw [charAt_letters _ hmod]
    by_cases h : col / 26 > 0
    · rw [if_pos h]
      rw [ih (col / 26 - 1) (by have := Nat.div_le_self col 26; omega)]
      rw [specColumnLabel, Nat.sub_add_cancel (by omega)]
    · have h0 : col / 26 = 0 := by omega
      rw [if_neg h, h0, bijBase26, if_pos rfl, empty_string_append]

/-- The code's `startsEq` test agrees with inspecting the head character. -/
theorem startsEq_eq_head : ∀ l : List Char, startsEq l = (l.head? == some '=') := by
  intro l
  match l with
  | [] => rfl
  | c :: r =>
    by_cases hc : c = '='
    · subst hc; rfl
    · unfold startsEq
      split
      · simp_all
      · simp [hc]

/-- The code's `shouldEscape` agrees with the specification's escaping
condition. -/
theorem shouldEscape_eq_claim : ∀ s : String, shouldEscape s = claimShouldEscape s := by
  intro s
  cases s with
  | mk l =>
    cases l with
    | nil => rfl
    | cons c r =>
      unfold shouldEscape claimShouldEscape
      rw [startsEq_eq_head]
      congr 2
      rw [show (String.mk (c :: r) != "") = true by
            rw [bne_iff_ne]
            intro heq
            exact absurd (congrArg String.data heq) (by simp)]
      simp [String.length]

/-! ## Claim theorems -/

/-- C2 (code_bug evidence): the tokenizer is *not* total.  On the empty
text, and on a text whose first field is an unterminated quote, the regex
matches the empty string at position 0 and `exec` never advances
`lastIndex`, so the JavaScript loop runs forever (modelled by `none`);
on other inputs it terminates, e.g. a one-character text. -/
theorem claim2_tokenizer_divergence :
    csvToArray "" ',' = none
    ∧ csvToArray "\"abc" ',' = none
    ∧ csvToArray "a" ',' = some [[some "a"]] := by
  refine ⟨rfl, rfl, rfl⟩

/-- C6 counterexample: tokenizing the text `,a` with delimiter `,` does
*not* yield a first row beginning with an empty cell — the regex's ordered
alternation consumes the leading delimiter as the first token's prefix, so
the row is just `["a"]`. -/
theorem claim6_counterexample :
    csvToArray ",a" ',' = some [[some "a"]]
    ∧ (some [[some "a"]] : Option (List (List Cell))) ≠ some [[some "", some "a"]] := by
  exact ⟨rfl, by decide⟩

/-- C6 amended: a field is emitted after each field delimiter and after
each line break, but at the start of the text only when the text does not
begin with a delimiter or line break (the start-of-text alternative is
tried last): `,a` yields the single-cell row `["a"]`, a leading line break
yields an empty first row, and interior delimiters and breaks each emit a
following field. -/
theorem claim6_amended :
    csvToArray ",a" ',' = some [[some "a"]]
    ∧ csvToArray "\na" ',' = some [[], [some "a"]]
    ∧ csvToArray "a,b\nc" ',' = some [[some "a", some "b"], [some "c"]]
    ∧ csvToArray "a,,b" ',' = some [[some "a", some "", some "b"]]
    ∧ csvToArray "a," ',' = some [[some "a", some ""]] := by
  refine ⟨rfl, rfl, rfl, rfl, rfl⟩

/-- C8 counterexample: the public cell-label operation at row 0, column 0
returns `"A0"`, not `"A1"` — the row number is concatenated exactly as
supplied. -/
theorem claim8_counterexample :
    cellLabel 0 0 = "A0" ∧ "A0" ≠ "A1" := by
  constructor
  · unfold cellLabel columnLabel
    norm_num
    rfl
  · decide

/-- C8 amended: the public cell-label operation applied to row 0 and
column 0 returns the text `"A0"` (column 0 is `A` and the row number is
rendered as supplied, with no 0-to-1 conversion). -/
theorem claim8_amended : cellLabel 0 0 = "A0" := by
  unfold cellLabel columnLabel
  norm_num
  rfl

/-- C9: for all row and column numbers, the cell label is the bijective
base-26 letter encoding of the column followed by the decimal rendering of
the row exactly as supplied; in particular `cellLabel 9 4 = "E9"`. -/
theorem claim9_cellLabel_spec :
    (∀ row col : Nat, cellLabel row col = specColumnLabel col ++ toString row)
    ∧ cellLabel 9 4 = "E9" := by
  constructor
  · intro row col
    rw [cellLabel, columnLabel_eq_spec]
  · unfold cellLabel columnLabel
    norm_num
    rfl

/-- C5: a cell value is escaped — wrapped in double quotes with every
embedded double quote doubled — iff it is a non-empty string that does not
start with `=` and does not match `digits[-\/]digits[-\/]digits`; every
other scalar (numbers, booleans, the empty string) is emitted via its
default text representation, unquoted.  The last conjunct exercises the
rule end-to-end through `toCSV`. -/
theorem claim5_escaping_iff :
    (∀ s : String, renderCell (JsVal.str s) =
      if claimShouldEscape s then "\"" ++ String.mk (escapeQuotes s.data) ++ "\"" else s)
    ∧ (∀ n : Int, renderCell (JsVal.num n) = toString n)
    ∧ (∀ b : Bool, renderCell (JsVal.bool b) = if b then "true" else "false")
    ∧ renderCell (JsVal.str "") = ""
    ∧ toCSV [[("a", JsVal.str "x\"y"), ("b", JsVal.str "=SUM(A1)"),
               ("c", JsVal.str "2019/8/25"), ("d", JsVal.num 7), ("e", JsVal.bool true)]]
        (some [.strIn "a", .strIn "b", .strIn "c", .strIn "d", .strIn "e"]) {} =
        "\"x\"\"y\",=SUM(A1),2019/8/25,7,true" := by
  refine ⟨?_, fun _ => rfl, fun _ => rfl, rfl, by decide⟩
  intro s
  show (if shouldEscape s then escapeCSV s else s) = _
  rw [shouldEscape_eq_claim]
  rfl

/-- C4 counterexample: for the text `"\na\n"`, which begins and ends with a
line break, decoding with a single column produces a trailing empty record:
the non-global strip pattern removes only the leading line break, the
trailing one survives, and the final empty cell yields the empty record
`[]` at the end of the output. -/
theorem claim4_counterexample :
    fromCSV "\na\n" (some [.strIn "a"]) {} = .ok [[("a", JsVal.str "a")], []]
    ∧ ([[("a", JsVal.str "a")], []] : List Record).getLast? = some ([] : Record) := by
  exact ⟨by decide, rfl⟩

/-- C1 counterexample: the round-trip fails for a record whose value is
emitted unescaped, here `{name: "=a,b"}` through a single text column with
no converter or parser (a trivially inverse pair): the leading `=` keeps
the cell unescaped, the embedded delimiter splits it on decode, and the
decoded record holds `"=a"`. -/
theorem claim1_counterexample :
    fromCSV (toCSV [[("name", JsVal.str "=a,b")]] (some [.strIn "name"]) {})
        (some [.strIn "name"]) {} = .ok [[("name", JsVal.str "=a")]]
    ∧ ([[("name", JsVal.str "=a")]] : List Record) ≠ [[("name", JsVal.str "=a,b")]] := by
  exact ⟨by decide, by decide⟩

/-- C10: when `fromCSV` is called with an absent column list and a text
consisting only of line breaks (or empty), the pre-processed text is
empty, column synthesis is skipped, and calling `.map` on the missing
column list throws a `TypeError` instead of returning an empty record
sequence. -/
theorem claim10_typeError (s : String) (opts : CsvOptions)
    (h : ∀ c ∈ s.data, c = '\n') : fromCSV s none opts = .typeError := by
  have hcol : ∀ l : List Char, (∀ c ∈ l, c = '\n') → collapseNLAux true l = [] := by
    intro l
    induction l with
    | nil => intro _; rfl
    | cons c r ih =>
      intro hl
      have hc : c = '\n' := hl c (List.mem_cons_self c r)
      have hr := ih (fun x hx => hl x (List.mem_cons_of_mem c hx))
      simp [collapseNLAux, hc, hr]
  have hpre : preprocess s = "" := by
    unfold preprocess
    cases hd : s.data with
    | nil => rfl
    | cons c r =>
      have hc : c = '\n' := by
        apply h; rw [hd]; exact List.mem_cons_self c r
      have hr : collapseNLAux true r = [] := by
        apply hcol
        intro x hx
        apply h; rw [hd]; exact List.mem_cons_of_mem c hx
      simp [collapseNLAux, hc, hr, stripOneNL]
  unfold fromCSV
  rw [hpre]
  rfl

/-- C10 witness: a concrete line-break-only text. -/
theorem claim10_typeError_witness : fromCSV "\n\n" none {} = .typeError :=
  claim10_typeError "\n\n" {} (by decide)

/-- After collapsing with `prevNL = true`, the result never starts with a
line break (a leading one would have been skipped). -/
theorem collapse_true_head : ∀ l : List Char, (collapseNLAux true l).head? ≠ some '\n' := by
  intro l
  induction l with
  | nil => simp [collapseNLAux]
  | cons c r ih =>
    by_cases hc : c = '\n'
    · simpa [collapseNLAux, hc] using ih
    · simp [collapseNLAux, hc]

/-- When the collapsed text starts with a line break, the rest of it does
not start with another one. -/
theorem collapse_false_nl_tail : ∀ l r : List Char,
    collapseNLAux false l = '\n' :: r → r.head? ≠ some '\n' := by
  intro l
  induction l with
  | nil => intro r h; simp [collapseNLAux] at h
  | cons c t ih =>
    intro r h
    by_cases hc : c = '\n'
    · subst hc
      simp only [collapseNLAux, if_pos rfl] at h
      simp at h
      rw [← h]
      exact collapse_true_head t
    · simp only [collapseNLAux, if_neg hc] at h
      injection h with h3 _
      exact absurd h3 hc

/-- C4 amended: pre-processing collapses every run of two or more line
breaks into one and removes exactly one line break — the leading one when
present, otherwise the trailing one (the strip pattern has no global
flag).  Hence the pre-processed text never begins with a line break (no
leading empty record can appear), but a text that both begins and ends
with line breaks keeps its trailing break and yields one trailing empty
record; the three-data-line blob with blank-line runs still decodes to
exactly 3 records. -/
theorem claim4_amended :
    (∀ s : String, (preprocess s).data.head? ≠ some '\n')
    ∧ preprocess "\na\n" = "a\n"
    ∧ preprocess "\na" = "a"
    ∧ preprocess "a\n" = "a"
    ∧ fromCSV "\"Cat Chow\",5.29\n\n\n\n\n\"Pizza\",6.99\n\n\n\"Bowl\",2.69" none {} =
        .ok [[("col1", JsVal.str "Cat Chow"), ("col2", JsVal.str "5.29")],
             [("col1", JsVal.str "Pizza"), ("col2", JsVal.str "6.99")],
             [("col1", JsVal.str "Bowl"), ("col2", JsVal.str "2.69")]] := by
  refine ⟨?_, rfl, rfl, rfl, by decide⟩
  intro s
  show (stripOneNL (collapseNLAux false s.data)).head? ≠ some '\n'
  cases hl : collapseNLAux false s.data with
  | nil => simp [stripOneNL]
  | cons c r =>
    by_cases hc : c = '\n'
    · rw [hc]
      simp only [stripOneNL]
      exact collapse_false_nl_tail s.data r (by rw [hl, hc])
    · unfold stripOneNL
      split
      · simp_all
      · split
        · cases r with
          | nil => simp
          | cons x r2 => simp [hc]
        · simp [hc]

/-! ## C3: required-field enforcement -/

/-- A column that triggers the required-field error for a given line: it
is valid (non-null with a truthy key), marked required, and its post-parse
value is empty. -/
def requiredEmptyCol (opts : CsvOptions) (line : List Cell) (rowIndex : Nat)
    (col : Option Column) (columnIndex : Nat) : Prop :=
  ∃ c k, col = some c ∧ c.key = some k ∧ k ≠ "" ∧ c.required = true ∧
    jsIsEmpty (postParseVal opts line rowIndex c k columnIndex) = true

/-- Some data row of `lines` (whose first row carries index `ri0`) has a
required column with an empty post-parse value. -/
def hasRequiredEmpty (opts : CsvOptions) (cols : List (Option Column))
    (lines : List (List Cell)) (ri0 : Nat) : Prop :=
  ∃ ri line, lines.get? ri = some line ∧
    ∃ j col, cols.get? j = some col ∧ requiredEmptyCol opts line (ri0 + ri) col j

/-- A required-empty column makes `processColumn` throw its error. -/
theorem processColumnDec_error_of (opts : CsvOptions) (line : List Cell) (ri : Nat)
    (acc : Record) (col : Option Column) (ci : Nat)
    (h : requiredEmptyCol opts line ri col ci) :
    ∃ k, processColumnDec opts line ri acc col ci = .error (requiredMsg k) ∧
      ∃ c, col = some c ∧ c.key = some k ∧ c.required = true ∧
        jsIsEmpty (postParseVal opts line ri c k ci) = true := by
  obtain ⟨c, k, rfl, hk, hne, hreq, hemp⟩ := h
  refine ⟨k, ?_, c, rfl, hk, hreq, hemp⟩
  simp only [processColumnDec, hk, processColumnDecKey, if_neg hne, hreq, hemp,
    Bool.and_self, if_pos]

/-- `processColumn` throws only the required-field error, and only for a
valid required column with an empty post-parse value. -/
theorem processColumnDec_error_inv (opts : CsvOptions) (line : List Cell) (ri : Nat)
    (acc : Record) (col : Option Column) (ci : Nat) (e : String)
    (h : processColumnDec opts line ri acc col ci = .error e) :
    ∃ c k, col = some c ∧ c.key = some k ∧ k ≠ "" ∧ c.required = true ∧
      jsIsEmpty (postParseVal opts line ri c k ci) = true ∧ e = requiredMsg k := by
  cases col with
  | none => exact absurd h (by simp [processColumnDec])
  | some c =>
    simp only [processColumnDec] at h
    cases hk : c.key with
    | none =>
      rw [hk] at h
      exact absurd h (by simp [processColumnDecKey])
    | some k =>
      rw [hk] at h
      simp only [processColumnDecKey] at h
      by_cases hke : k = ""
      · rw [if_pos hke] at h; exact absurd h (by simp)
      · rw [if_neg hke] at h
        by_cases herr : (c.required && jsIsEmpty (postParseVal opts line ri c k ci)) = true
        · rw [if_pos herr] at h
          obtain ⟨hreq, hemp⟩ := Bool.and_eq_true_iff.mp herr
          exact ⟨c, k, rfl, hk, hke, hreq, hemp, (Except.error.injEq _ _).mp h.symm⟩
        · rw [if_neg herr] at h
          by_cases hca : (opts.includeEmptyValues || !jsIsEmpty (postParseVal opts line ri c k ci)) = true
          · rw [if_pos hca] at h; exact absurd h (by simp)
          · rw [if_neg hca] at h; exact absurd h (by simp)

/-- If some column of the remaining list is required-empty, the fold over
columns throws a required-field error naming a required-empty column. -/
theorem getRowAux_error_of (opts : CsvOptions) (line : List Cell) (ri : Nat) :
    ∀ (cols : List (Option Column)) (ci0 : Nat) (acc : Record),
    (∃ j col, cols.get? j = some col ∧ requiredEmptyCol opts line ri col (ci0 + j)) →
    ∃ k, getRowAux opts line ri cols ci0 acc = .error (requiredMsg k) ∧
      ∃ j c, cols.get? j = some (some c) ∧ c.key = some k ∧ c.required = true ∧
        jsIsEmpty (postParseVal opts line ri c k (ci0 + j)) = true := by
  intro cols
  induction cols with
  | nil =>
    intro ci0 acc h
    obtain ⟨j, col, hg, _⟩ := h
    simp at hg
  | cons col cs ih =>
    intro ci0 acc h
    cases hp : processColumnDec opts line ri acc col ci0 with
    | error e =>
      obtain ⟨c, k, hcol, hk, _, hreq, hemp, he⟩ :=
        processColumnDec_error_inv opts line ri acc col ci0 e hp
      refine ⟨k, ?_, 0, c, ?_, hk, hreq, ?_⟩
      · simp only [getRowAux, hp, he]
      · rw [hcol]; rfl
      · simpa using hemp
    | ok acc2 =>
      obtain ⟨j, colj, hg, hbad⟩ := h
      cases j with
      | zero =>
        have hcol : col = colj := by simpa using hg
        rw [← hcol] at hbad
        obtain ⟨k, hk, _⟩ :=
          processColumnDec_error_of opts line ri acc col ci0 (by simpa using hbad)
        rw [hp] at hk
        exact absurd hk (by simp)
      | succ j2 =>
        have hg2 : cs.get? j2 = some colj := by simpa using hg
        have hbad2 : requiredEmptyCol opts line ri colj ((ci0 + 1) + j2) := by
          have : ci0 + (j2 + 1) = (ci0 + 1) + j2 := by omega
          rwa [this] at hbad
        obtain ⟨k, heq, j3, c3, hg3, hk3, hreq3, hemp3⟩ :=
          ih (ci0 + 1) acc2 ⟨j2, colj, hg2, hbad2⟩
        refine ⟨k, ?_, j3 + 1, c3, by simpa using hg3, hk3, hreq3, ?_⟩
        · simp only [getRowAux, hp]
          exact heq
        · have : ci0 + (j3 + 1) = (ci0 + 1) + j3 := by omega
          rwa [this]

/-- Conversely, when the fold over columns throws, the error is the
required-field error of some valid required column with an empty
post-parse value. -/
theorem getRowAux_error_inv (opts : CsvOptions) (line : List Cell) (ri : Nat) :
    ∀ (cols : List (Option Column)) (ci0 : Nat) (acc : Record) (e : String),
    getRowAux opts line ri cols ci0 acc = .error e →
    ∃ k j c, e = requiredMsg k ∧ cols.get? j = some (some c) ∧ c.key = some k ∧
      c.required = true ∧ jsIsEmpty (postParseVal opts line ri c k (ci0 + j)) = true := by
  intro cols
  induction cols with
  | nil =>
    intro ci0 acc e h
    exact absurd h (by simp [getRowAux])
  | cons col cs ih =>
    intro ci0 acc e h
    unfold getRowAux at h
    cases hp : processColumnDec opts line ri acc col ci0 with
    | error e2 =>
      rw [hp] at h
      obtain ⟨c, k, hcol, hk, _, hreq, hemp, he⟩ :=
        processColumnDec_error_inv opts line ri acc col ci0 e2 hp
      refine ⟨k, 0, c, ?_, ?_, hk, hreq, by simpa using hemp⟩
      · cases h; exact he
      · rw [hcol]; rfl
    | ok acc2 =>
      rw [hp] at h
      obtain ⟨k, j, c, he, hg, hk, hreq, hemp⟩ := ih (ci0 + 1) acc2 e h
      refine ⟨k, j + 1, c, he, by simpa using hg, hk, hreq, ?_⟩
      have : ci0 + (j + 1) = (ci0 + 1) + j := by omega
      rwa [this]

/-- If some data row has a required-empty column, mapping the rows throws
the required-field error of such a column. -/
theorem mapRows_error_of (opts : CsvOptions) (cols : List (Option Column)) :
    ∀ (lines : List (List Cell)) (ri0 : Nat),
    hasRequiredEmpty opts cols lines ri0 →
    ∃ k, mapRows cols opts lines ri0 = .error (requiredMsg k) ∧
      ∃ ri line j c, lines.get? ri = some line ∧ cols.get? j = some (some c) ∧
        c.key = some k ∧ c.required = true ∧
        jsIsEmpty (postParseVal opts line (ri0 + ri) c k j) = true := by
  intro lines
  induction lines with
  | nil =>
    intro ri0 h
    obtain ⟨ri, line, hg, _⟩ := h
    simp at hg
  | cons line rest ih =>
    intro ri0 h
    cases hg : getRow cols opts line ri0 with
    | error e =>
      obtain ⟨k, j, c, he, hgj, hk, hreq, hemp⟩ :=
        getRowAux_error_inv opts line ri0 cols 0 [] e hg
      refine ⟨k, ?_, 0, line, j, c, rfl, hgj, hk, hreq, ?_⟩
      · simp only [mapRows, hg, he]
      · simpa using hemp
    | ok r =>
      obtain ⟨ri, l, hl, j, colj, hgj, hbad⟩ := h
      cases ri with
      | zero =>
        have hline : line = l := by simpa using hl
        rw [← hline] at hbad
        obtain ⟨k, hk, _⟩ := getRowAux_error_of opts line ri0 cols 0 []
          ⟨j, colj, hgj, by simpa using hbad⟩
        have hk2 : getRow cols opts line ri0 = Except.error (requiredMsg k) := hk
        rw [hg] at hk2
        exact absurd hk2 (by simp)
      | succ ri2 =>
        have hl2 : rest.get? ri2 = some l := by simpa using hl
        have hbad2 : requiredEmptyCol opts l ((ri0 + 1) + ri2) colj j := by
          have : ri0 + (ri2 + 1) = (ri0 + 1) + ri2 := by omega
          rwa [this] at hbad
        obtain ⟨k, herr, ri3, l3, j3, c3, hl3, hg3, hk3, hreq3, hemp3⟩ :=
          ih (ri0 + 1) ⟨ri2, l, hl2, j, colj, hgj, hbad2⟩
        refine ⟨k, ?_, ri3 + 1, l3, j3, c3, by simpa using hl3, hg3, hk3, hreq3, ?_⟩
        · simp only [mapRows, hg, herr]
        · have : ri0 + (ri3 + 1) = (ri0 + 1) + ri3 := by omega
          rwa [this]

/-- C3: during decode, if any valid column marked `required` has an empty
post-parse value (null, undefined from a short row, or the empty string)
for some data row, `fromCSV` throws the error naming such a column's key —
the result is the error, never a partial record sequence. -/
theorem claim3_required (csvStr : String) (cs : List ColumnInput) (opts : CsvOptions)
    (arr : List (List Cell))
    (harr : csvToArray (preprocess csvStr) opts.delim = some arr)
    (hbad : hasRequiredEmpty opts (cs.map detectColumn) (arr.drop (startIndex opts)) 0) :
    ∃ k, fromCSV csvStr (some cs) opts = .err (requiredMsg k) ∧
      ∃ ri line j c, (arr.drop (startIndex opts)).get? ri = some line ∧
        (cs.map detectColumn).get? j = some (some c) ∧ c.key = some k ∧
        c.required = true ∧ jsIsEmpty (postParseVal opts line ri c k j) = true := by
  obtain ⟨k, herr, ri, line, j, c, hl, hgj, hk, hreq, hemp⟩ :=
    mapRows_error_of opts (cs.map detectColumn) (arr.drop (startIndex opts)) 0 hbad
  refine ⟨k, ?_, ri, line, j, c, hl, hgj, hk, hreq, by simpa using hemp⟩
  have hmain : fromCSV csvStr (some cs) opts =
      fromCSVWithCols (preprocess csvStr) (cs.map detectColumn) opts := by
    simp [fromCSV]
  rw [hmain]
  simp only [fromCSVWithCols, harr, herr]

/-- C3 witness: decoding the one-cell text `x` with a second required
column `b` (the row is shorter than the column list) throws the error
naming `b`. -/
theorem claim3_required_witness :
    ∃ k, fromCSV "x"
        (some [ColumnInput.objIn {key := some "a"},
               ColumnInput.objIn {key := some "b", required := true}]) {} =
        .err (requiredMsg k) ∧
      ∃ ri line j c,
        (([[some "x"]] : List (List Cell)).drop (startIndex {})).get? ri = some line ∧
        (([ColumnInput.objIn {key := some "a"},
           ColumnInput.objIn {key := some "b", required := true}].map detectColumn)).get? j =
          some (some c) ∧
        c.key = some k ∧ c.required = true ∧
        jsIsEmpty (postParseVal {} line ri c k j) = true := by
  apply claim3_required "x"
    [ColumnInput.objIn {key := some "a"}, ColumnInput.objIn {key := some "b", required := true}]
    {} [[some "x"]] rfl
  exact ⟨0, [some "x"], rfl, 1, some {key := some "b", required := true},
    rfl, {key := some "b", required := true}, "b", rfl, rfl, by decide, rfl, rfl⟩

/-! ## C7: context numbers passed to converters and parsers -/

/-- A converter that records the row and column numbers it was given. -/
def probeC : JsVal → ConvCtx → JsVal :=
  fun _ ctx => JsVal.str ("R" ++ toString ctx.row ++ "C" ++ toString ctx.column)

/-- A parser that records the row and column numbers it was given. -/
def probeP : String → ParseCtx → JsVal :=
  fun _ ctx => JsVal.str ("R" ++ toString ctx.row ++ "C" ++ toString ctx.column)

/-- A column whose converter is the recording probe. -/
def probeColC : Column := {key := some "k", converter := some probeC}

/-- A column whose parser is the recording probe (parsing empty cells
too). -/
def probeColP : Column := {key := some "k", parser := some probeP, parseEmpty := true}

/-- C7: the context passed to a converter or parser carries
`row = dataIndex + headerOffset + 1` (`headerOffset` is 1 iff
`includeHeader`) and `column = columnIndex`: the recording probes observe
exactly those numbers, both at the per-cell level for arbitrary indices
and end-to-end through `toCSV` and `fromCSV` with a header line. -/
theorem claim7_context_numbers :
    (∀ (opts : CsvOptions) (obj : Record) (ri ci : Nat),
      processColumnEnc opts obj ri (some probeColC) ci =
        renderCell (JsVal.str
          ("R" ++ toString (ri + (if opts.includeHeader then 1 else 0) + 1) ++
           "C" ++ toString ci)))
    ∧ (∀ (opts : CsvOptions) (ri ci : Nat) (s : String) (acc : Record),
      processColumnDec opts (List.replicate ci (none : Cell) ++ [some s]) ri acc
          (some probeColP) ci =
        .ok (setKey acc "k" (JsVal.str
          ("R" ++ toString (ri + (if opts.includeHeader then 1 else 0) + 1) ++
           "C" ++ toString ci))))
    ∧ toCSV [[("k", JsVal.str "a")], [("k", JsVal.str "b")]]
        (some [.objIn probeColC]) {includeHeader := true} = "\n\"R2C0\"\n\"R3C0\""
    ∧ fromCSV "h\na\nb" (some [.objIn probeColP]) {includeHeader := true} =
        .ok [[("k", JsVal.str "R2C0")], [("k", JsVal.str "R3C0")]] := by
  refine ⟨fun opts obj ri ci => rfl, ?_, by decide, by decide⟩
  intro opts ri ci s acc
  have hcell : (List.replicate ci (none : Cell) ++ [some s]).get? ci = some (some s) := by
    rw [List.get?_eq_getElem?, List.getElem?_append_right (by simp)]
    simp
  have hne : ((("R" ++ toString (ri + (if opts.includeHeader then 1 else 0) + 1) ++
      "C" ++ toString ci) : String) == "") = false := by
    rw [beq_eq_false_iff_ne]
    intro heq
    have h2 := congrArg String.data heq
    simp [string_data_append] at h2
  simp only [processColumnDec, probeColP]
  simp only [processColumnDecKey]
  rw [if_neg (by decide : ¬ ("k" : String) = "")]
  simp only [postParseVal, hcell, Option.getD_some]
  simp only [probeP, jsIsEmpty, startIndex, hne]
  simp [hne]

/-! ## C1: round-trip through encode and decode

The decisive invariants: a value that `toCSV` quote-escapes and that
contains no run of two or more line breaks is tokenized back verbatim, and
the pre-processing of `fromCSV` leaves the encoded text untouched. -/

/-- No two consecutive line breaks. -/
def NoDoubleNL (l : List Char) : Prop :=
  l.Chain' (fun a b => a ≠ '\n' ∨ b ≠ '\n')

instance noDoubleNL_decidable (l : List Char) : Decidable (NoDoubleNL l) :=
  inferInstanceAs (Decidable (l.Chain' (fun a b => a ≠ '\n' ∨ b ≠ '\n')))

/-- Unescaping undoes escaping. -/
theorem unescape_escQ : ∀ l : List Char, unescapePairs (escapeQuotes l) = l := by
  intro l
  induction l with
  | nil => rfl
  | cons c r ih =>
    by_cases hc : c = '"'
    · subst hc
      simp [escapeQuotes, unescapePairs, ih]
    · simp only [escapeQuotes, if_neg hc]
      cases hq : escapeQuotes r with
      | nil => simp [unescapePairs, hc, hq] at ih ⊢; exact ih
      | cons d t =>
        simp only [unescapePairs, if_neg hc]
        rw [← hq, ih]

/-- Escaping a non-empty character list is non-empty. -/
theorem escQ_ne_nil : ∀ l : List Char, l ≠ [] → escapeQuotes l ≠ [] := by
  intro l h
  cases l with
  | nil => exact absurd rfl h
  | cons c r =>
    by_cases hc : c = '"' <;> simp [escapeQuotes, hc]

/-- Scanning the escaped body finds exactly the closing quote that follows
it, provided the remainder does not immediately continue with a quote. -/
theorem quotedScan_escQ : ∀ (l rest : List Char), rest.head? ≠ some '"' →
    quotedScan (escapeQuotes l ++ '"' :: rest) = some (escapeQuotes l, rest) := by
  intro l
  induction l with
  | nil =>
    intro rest hrest
    cases rest with
    | nil => rfl
    | cons x xs =>
      have hx : x ≠ '"' := by
        intro he
        exact hrest (by rw [he]; rfl)
      simp [escapeQuotes, quotedScan, hx]
  | cons c r ih =>
    intro rest hrest
    by_cases hc : c = '"'
    · subst hc
      simp only [escapeQuotes, if_pos rfl, List.cons_append]
      simp [quotedScan, ih rest hrest]
    · simp only [escapeQuotes, if_neg hc, List.cons_append]
      unfold quotedScan
      rw [if_neg hc, ih rest hrest]

/-- The characters of one escaped cell followed by the rest of the text. -/
def encBody (v : String) (t : List Char) : List Char :=
  '"' :: (escapeQuotes v.data ++ '"' :: t)

/-- The characters of the encoded text after the first cell: a line break
and the next escaped cell, for each remaining value. -/
def tailChars : List String → List Char
  | [] => []
  | v :: rest => '\n' :: encBody v (tailChars rest)

/-- The encoded text of a non-empty single-column value list. -/
theorem joinSep_data : ∀ (vs : List String) (v : String),
    (joinSep "\n" ((v :: vs).map escapeCSV)).data = encBody v (tailChars vs) := by
  intro vs
  induction vs with
  | nil =>
    intro v
    show (escapeCSV v).data = _
    simp [escapeCSV, encBody, tailChars, string_data_append]
  | cons w ws ih =>
    intro v
    show (escapeCSV v ++ "\n" ++ joinSep "\n" ((w :: ws).map escapeCSV)).data = _
    rw [string_data_append, string_data_append, ih w]
    simp [escapeCSV, encBody, tailChars, string_data_append]

/-- Collapsing line-break runs is the identity on a text with no two
consecutive line breaks (in the `prevNL = true` state, additionally, the
text must not begin with a line break). -/
theorem collapse_id_aux : ∀ l : List Char, NoDoubleNL l →
    collapseNLAux false l = l ∧ (l.head? ≠ some '\n' → collapseNLAux true l = l) := by
  intro l
  induction l with
  | nil => exact fun _ => ⟨rfl, fun _ => rfl⟩
  | cons c r ih =>
    intro h
    rw [NoDoubleNL, List.chain'_cons'] at h
    obtain ⟨hhead, htail⟩ := h
    by_cases hc : c = '\n'
    · subst hc
      have hr : r.head? ≠ some '\n' := by
        cases hr2 : r.head? with
        | none => simp
        | some y =>
          have := hhead y (by simpa using hr2)
          simp only [ne_eq, not_true_eq_false, false_or] at this
          simpa using this
      constructor
      · simp only [collapseNLAux, if_pos rfl]
        rw [(ih htail).2 hr]
        simp
      · intro hcontra
        simp at hcontra
    · constructor
      · simp only [collapseNLAux, if_neg hc]
        rw [(ih htail).1]
      · intro _
        simp only [collapseNLAux, if_neg hc]
        rw [(ih htail).1]

/-- Pre-processing leaves a text untouched when it has no two consecutive
line breaks, does not begin with one, and does not end with one. -/
theorem preprocess_id (s : String) (h1 : NoDoubleNL s.data)
    (h2 : s.data.head? ≠ some '\n') (h3 : s.data.getLast? ≠ some '\n') :
    preprocess s = s := by
  unfold preprocess
  rw [(collapse_id_aux s.data h1).1]
  have hstrip : stripOneNL s.data = s.data := by
    cases hd : s.data with
    | nil => rfl
    | cons c r =>
      have hc : c ≠ '\n' := by
        intro he
        rw [hd, he] at h2
        exact h2 rfl
      have hlast : (c :: r).getLast? ≠ some '\n' := by rw [← hd]; exact h3
      simp only [stripOneNL]
      split
      · simp_all
      · rw [if_neg hlast]
  rw [hstrip, string_mk_data]

/-- The head character of an escaped text is a line break only when the
original began with one. -/
theorem escQ_head_nl : ∀ l : List Char,
    (escapeQuotes l).head? = some '\n' → l.head? = some '\n' := by
  intro l h
  cases l with
  | nil => simp [escapeQuotes] at h
  | cons c r =>
    by_cases hc : c = '"'
    · rw [hc] at h
      simp [escapeQuotes] at h
    · simp only [escapeQuotes, if_neg hc, List.head?_cons] at h
      exact h

/-- Escaping preserves the absence of consecutive line breaks. -/
theorem noDouble_escQ : ∀ l : List Char, NoDoubleNL l → NoDoubleNL (escapeQuotes l) := by
  intro l
  induction l with
  | nil => intro _; simp [escapeQuotes, NoDoubleNL]
  | cons c r ih =>
    intro h
    rw [NoDoubleNL, List.chain'_cons'] at h
    obtain ⟨hhead, htail⟩ := h
    by_cases hc : c = '"'
    · subst hc
      rw [show escapeQuotes ('"' :: r) = '"' :: '"' :: escapeQuotes r from by
        simp [escapeQuotes]]
      rw [NoDoubleNL, List.chain'_cons']
      refine ⟨fun y _ => Or.inl (by decide), ?_⟩
      rw [List.chain'_cons']
      refine ⟨fun y _ => Or.inl (by decide), ih htail⟩
    · simp only [escapeQuotes, if_neg hc]
      rw [NoDoubleNL, List.chain'_cons']
      refine ⟨?_, ih htail⟩
      intro y hy
      by_cases hcn : c = '\n'
      · subst hcn
        right
        intro hyn
        subst hyn
        have := escQ_head_nl r (by simpa using hy)
        cases hr : r.head? with
        | none => rw [hr] at this; exact absurd this (by simp)
        | some z =>
          rw [hr] at this
          have hz : z = '\n' := by simpa using this
          have := hhead z (by simpa using hr)
          rw [hz] at this
          simp at this
      · exact Or.inl hcn

/-- `encBody` as an append of its two quote-headed halves. -/
theorem encBody_eq_append (v : String) (t : List Char) :
    encBody v t = ('"' :: escapeQuotes v.data) ++ ('"' :: t) := by
  simp [encBody]

/-- The encoded text has no two consecutive line breaks when no value
does. -/
theorem noDouble_enc : ∀ (vs : List String) (v : String), NoDoubleNL v.data →
    (∀ w ∈ vs, NoDoubleNL w.data) → NoDoubleNL (encBody v (tailChars vs)) := by
  intro vs
  induction vs with
  | nil =>
    intro v hv _
    rw [encBody_eq_append, NoDoubleNL, List.chain'_append]
    refine ⟨?_, ?_, ?_⟩
    · rw [List.chain'_cons']
      exact ⟨fun y _ => Or.inl (by decide), noDouble_escQ v.data hv⟩
    · simp [tailChars]
    · intro x _ y hy
      simp only [tailChars, List.head?_cons, Option.mem_def, Option.some.injEq] at hy
      rw [← hy]
      exact Or.inr (by decide)
  | cons w ws ih =>
    intro v hv hws
    rw [encBody_eq_append, NoDoubleNL, List.chain'_append]
    refine ⟨?_, ?_, ?_⟩
    · rw [List.chain'_cons']
      exact ⟨fun y _ => Or.inl (by decide), noDouble_escQ v.data hv⟩
    · show List.Chain' _ ('"' :: tailChars (w :: ws))
      rw [List.chain'_cons']
      refine ⟨fun y _ => Or.inl (by decide), ?_⟩
      show List.Chain' _ ('\n' :: encBody w (tailChars ws))
      rw [List.chain'_cons']
      refine ⟨?_, ih w (hws w (List.mem_cons_self w ws))
        (fun x hx => hws x (List.mem_cons_of_mem w hx))⟩
      intro y hy
      simp only [encBody, List.head?_cons, Option.mem_def, Option.some.injEq] at hy
      rw [← hy]
      exact Or.inr (by decide)
    · intro x _ y hy
      simp only [List.head?_cons, Option.mem_def, Option.some.injEq] at hy
      rw [← hy]
      exact Or.inr (by decide)

/-- The last element of a cons-and-append list with a non-empty tail. -/
theorem getLast_cons_append (a : Char) (l1 l2 : List Char) (h : l2 ≠ []) :
    (a :: (l1 ++ l2)).getLast? = l2.getLast? := by
  rw [show a :: (l1 ++ l2) = (a :: l1) ++ l2 from rfl]
  exact List.getLast?_append_of_ne_nil (a :: l1) h

/-- The encoded text ends with a quote. -/
theorem getLast_enc : ∀ (vs : List String) (v : String),
    (encBody v (tailChars vs)).getLast? = some '"' := by
  intro vs
  induction vs with
  | nil =>
    intro v
    show ('"' :: (escapeQuotes v.data ++ '"' :: tailChars [])).getLast? = _
    rw [getLast_cons_append _ _ _ (by simp [tailChars])]
    simp [tailChars]
  | cons w ws ih =>
    intro v
    show ('"' :: (escapeQuotes v.data ++ '"' :: '\n' :: encBody w (tailChars ws))).getLast? = _
    rw [getLast_cons_append _ _ _ (by simp)]
    rw [List.getLast?_cons_cons]
    rw [show encBody w (tailChars ws) = '"' :: (escapeQuotes w.data ++ '"' :: tailChars ws) from rfl]
    rw [List.getLast?_cons_cons]
    exact ih w

/-- An escaped value satisfies the escaper's non-emptiness requirement. -/
theorem shouldEscape_ne_empty (w : String) (h : shouldEscape w = true) : w ≠ "" := by
  intro he
  subst he
  exact absurd h (by decide)

/-- A non-empty string has a non-empty character list. -/
theorem data_ne_nil_of_ne_empty (w : String) (h : w ≠ "") : w.data ≠ [] := by
  intro hd
  apply h
  cases w with
  | mk l => exact congrArg String.mk hd

/-- The text after a cell boundary never begins with a quote. -/
theorem tailChars_head : ∀ vs : List String, (tailChars vs).head? ≠ some '"' := by
  intro vs
  cases vs <;> simp [tailChars]

/-- The field group consumes exactly one escaped cell: the quoted
alternative matches its body, the non-empty capture is unescaped back to
the original value. -/
theorem matchField_enc (v : String) (t : List Char) (hv : v ≠ "")
    (ht : t.head? ≠ some '"') :
    matchField ',' (encBody v t) = (some v, t) := by
  rw [show encBody v t = '"' :: (escapeQuotes v.data ++ '"' :: t) from rfl]
  show (match quotedScan (escapeQuotes v.data ++ '"' :: t) with
    | some (content, rest) =>
      if content = [] then ((none : Cell), rest)
      else (some (String.mk (unescapePairs content)), rest)
    | none => (some "", '"' :: (escapeQuotes v.data ++ '"' :: t))) = (some v, t)
  simp only [quotedScan_escQ v.data t ht]
  rw [if_neg (escQ_ne_nil v.data (data_ne_nil_of_ne_empty v hv))]
  rw [unescape_escQ, string_mk_data]

/-- After a line break, the next match consumes the break and one escaped
cell. -/
theorem findMatch_tail (v : String) (t : List Char) (hv : v ≠ "")
    (ht : t.head? ≠ some '"') :
    findMatch ',' ('\n' :: encBody v t) false = some ⟨['\n'], some v, t⟩ := by
  have h1 : tryMatchAt ',' ('\n' :: encBody v t) false = some ⟨['\n'], some v, t⟩ := by
    unfold tryMatchAt
    simp only [show matchDelim ',' ('\n' :: encBody v t) false =
      some (['\n'], encBody v t) from rfl]
    simp only [matchField_enc v t hv ht]
  simp only [findMatch, h1]

/-- Pushing a cell after opening a fresh row appends a one-cell row. -/
theorem pushLast_cons_ne (r : List Cell) (X : List (List Cell)) (h : X ≠ []) (c : Cell) :
    pushLast (r :: X) c = r :: pushLast X c := by
  cases X with
  | nil => exact absurd rfl h
  | cons y ys => rfl

/-- Pushing onto a freshly appended empty row appends a one-cell row. -/
theorem pushLast_snoc : ∀ (acc : List (List Cell)) (c : Cell),
    pushLast (acc ++ [[]]) c = acc ++ [[c]] := by
  intro acc c
  induction acc with
  | nil => rfl
  | cons r rs ih =>
    rw [List.cons_append, pushLast_cons_ne r (rs ++ [[]]) (by simp) c, ih]
    rfl

/-- The exec loop turns the encoded tail into one single-cell row per
value. -/
theorem execLoop_tail : ∀ (vs : List String) (acc : List (List Cell)) (fuel : Nat),
    (tailChars vs).length + 1 ≤ fuel → (∀ w ∈ vs, w ≠ "") →
    execLoop ',' fuel (tailChars vs) acc =
      some (acc ++ vs.map (fun v => [some v])) := by
  intro vs
  induction vs with
  | nil =>
    intro acc fuel hf _
    cases fuel with
    | zero => omega
    | succ f =>
      show execLoop ',' (f + 1) [] acc = some (acc ++ [])
      simp only [execLoop]
      rw [show findMatch ',' [] false = none from rfl]
      simp
  | cons v ws ih =>
    intro acc fuel hf hw
    have hlen1 : (tailChars (v :: ws)).length = (encBody v (tailChars ws)).length + 1 := by
      simp [tailChars]
    have hlen2 : (encBody v (tailChars ws)).length =
        (escapeQuotes v.data).length + (tailChars ws).length + 2 := by
      simp [encBody]
      omega
    cases fuel with
    | zero => omega
    | succ f =>
      rw [show tailChars (v :: ws) = '\n' :: encBody v (tailChars ws) from rfl]
      simp only [execLoop]
      simp only [findMatch_tail v (tailChars ws) (hw v (List.mem_cons_self v ws))
        (tailChars_head ws)]
      have hpush : pushMatch ',' acc ⟨['\n'], some v, tailChars ws⟩ = acc ++ [[some v]] := by
        unfold pushMatch
        rw [if_pos (by decide : ((['\n'] : List Char).length > 0 && ['\n'] != [',']) = true)]
        exact pushLast_snoc acc (some v)
      rw [hpush]
      rw [ih (acc ++ [[some v]]) f (by omega) (fun w hx => hw w (List.mem_cons_of_mem v hx))]
      simp

/-- Tokenizing the encoded text of non-empty values yields one
single-cell row per value. -/
theorem csvToArray_enc (vs : List String) (v : String) (s : String)
    (hdata : s.data = encBody v (tailChars vs))
    (hv : v ≠ "") (hws : ∀ w ∈ vs, w ≠ "") :
    csvToArray s ',' = some ((v :: vs).map (fun w => [(some w : Cell)])) := by
  unfold csvToArray
  rw [hdata]
  have h1 : tryMatchAt ',' (encBody v (tailChars vs)) true = some ⟨[], some v, tailChars vs⟩ := by
    unfold tryMatchAt
    simp only [show matchDelim ',' (encBody v (tailChars vs)) true =
        some ([], encBody v (tailChars vs)) from rfl]
    simp only [matchField_enc v (tailChars vs) hv (tailChars_head vs)]
  simp only [h1]
  have hlen : (encBody v (tailChars vs)).length =
      (escapeQuotes v.data).length + (tailChars vs).length + 2 := by
    simp [encBody]
    omega
  rw [if_neg (by omega : ¬ (tailChars vs).length = (encBody v (tailChars vs)).length)]
  rw [show pushMatch ',' [[]] ⟨[], some v, tailChars vs⟩ = [[some v]] from rfl]
  rw [execLoop_tail vs [[some v]] ((tailChars vs).length + 1) (le_refl _) hws]
  rfl

/-- The normalized single-text-column list used by the round-trip
theorem. -/
def nameCols : List (Option Column) := [ColumnInput.strIn "name"].map detectColumn

/-- One encoded line of a single-text-column record: the escaped value. -/
theorem getLine_single (v : String) (ri : Nat) (h : shouldEscape v = true) :
    getLine nameCols {} [("name", JsVal.str v)] ri =
      escapeCSV v := by
  show processColumnEnc {} [("name", JsVal.str v)] ri (detectColumn (.strIn "name")) 0 =
    escapeCSV v
  show renderCell (JsVal.str v) = escapeCSV v
  simp [renderCell, h]

/-- Encoding a single-text-column record list joins the escaped values
with line breaks. -/
theorem toCSV_single_col (vs : List String) (h : ∀ v ∈ vs, shouldEscape v = true) :
    toCSV (vs.map fun v => [("name", JsVal.str v)]) (some [.strIn "name"]) {} =
      joinSep "\n" (vs.map escapeCSV) := by
  have haux : ∀ (l : List String) (n : Nat), (∀ v ∈ l, shouldEscape v = true) →
      ((l.map fun v => ([("name", JsVal.str v)] : Record)).enumFrom n).map
        (fun p => getLine nameCols {} p.2 p.1) =
      l.map escapeCSV := by
    intro l
    induction l with
    | nil => intro n _; rfl
    | cons x xs ih =>
      intro n hl
      simp only [List.map_cons, List.enumFrom]
      rw [getLine_single x n (hl x (List.mem_cons_self x xs))]
      rw [ih (n + 1) (fun w hw => hl w (List.mem_cons_of_mem x hw))]
  show joinSep "\n"
      (((vs.map fun v => ([("name", JsVal.str v)] : Record)).enum).map
        (fun p => getLine nameCols {} p.2 p.1)) =
    joinSep "\n" (vs.map escapeCSV)
  rw [show (vs.map fun v => ([("name", JsVal.str v)] : Record)).enum =
      (vs.map fun v => ([("name", JsVal.str v)] : Record)).enumFrom 0 from rfl]
  rw [haux vs 0 h]

/-- Decoding the tokenized single-cell rows restores the records. -/
theorem mapRows_single : ∀ (vs : List String) (ri : Nat), (∀ v ∈ vs, v ≠ "") →
    mapRows nameCols {}
        (vs.map fun v => [(some v : Cell)]) ri =
      .ok (vs.map fun v => [("name", JsVal.str v)]) := by
  intro vs
  induction vs with
  | nil => intro ri _; rfl
  | cons v ws ih =>
    intro ri hv
    have hvne : (v == "") = false := by
      rw [beq_eq_false_iff_ne]
      exact hv v (List.mem_cons_self v ws)
    have hrow : getRow nameCols {} [some v] ri =
        .ok [("name", JsVal.str v)] := by
      show getRowAux {} [some v] ri [detectColumn (.strIn "name")] 0 [] = _
      simp only [getRowAux]
      simp only [show detectColumn (.strIn "name") = some {key := some "name"} from rfl]
      simp only [processColumnDec, processColumnDecKey]
      rw [if_neg (by decide : ¬ ("name" : String) = "")]
      simp only [show postParseVal {} [some v] ri {key := some "name"} "name" 0 =
        JsVal.str v from rfl]
      simp only [jsIsEmpty, hvne]
      simp [setKey, getRowAux]
    simp only [List.map_cons, mapRows, hrow]
    rw [ih (ri + 1) (fun w hx => hv w (List.mem_cons_of_mem v hx))]

/-- C1 amended: for a non-empty record sequence over a single text column
(no converter or parser, a trivially inverse pair), whose values are all
quote-escaped by the encoder (non-empty strings, not starting with `=`,
not date-like) and contain no run of two or more line breaks, decoding
the encoding restores the records exactly; in particular the example
value with embedded delimiters, quotes and a line break is reproduced
unchanged. -/
theorem claim1_roundtrip_amended :
    (∀ vs : List String, vs ≠ [] →
      (∀ v ∈ vs, shouldEscape v = true ∧ NoDoubleNL v.data) →
      fromCSV (toCSV (vs.map fun v => [("name", JsVal.str v)]) (some [.strIn "name"]) {})
          (some [.strIn "name"]) {} =
        .ok (vs.map fun v => [("name", JsVal.str v)]))
    ∧ fromCSV (toCSV [[("name", JsVal.str "A, \"B\"\nC")]] (some [.strIn "name"]) {})
          (some [.strIn "name"]) {} =
        .ok [[("name", JsVal.str "A, \"B\"\nC")]] := by
  constructor
  · intro vs hne hprop
    cases vs with
    | nil => exact absurd rfl hne
    | cons v ws =>
      have hesc : ∀ w ∈ v :: ws, shouldEscape w = true := fun w hw => (hprop w hw).1
      have hnd : ∀ w ∈ v :: ws, NoDoubleNL w.data := fun w hw => (hprop w hw).2
      have hww : ∀ w ∈ v :: ws, w ≠ "" := fun w hw => shouldEscape_ne_empty w (hesc w hw)
      rw [toCSV_single_col (v :: ws) hesc]
      have hdata := joinSep_data ws v
      have hnd1 : NoDoubleNL (joinSep "\n" ((v :: ws).map escapeCSV)).data := by
        rw [hdata]
        exact noDouble_enc ws v (hnd v (List.mem_cons_self v ws))
          (fun w hw => hnd w (List.mem_cons_of_mem v hw))
      have hh : (joinSep "\n" ((v :: ws).map escapeCSV)).data.head? ≠ some '\n' := by
        rw [hdata]
        simp [encBody]
      have hl : (joinSep "\n" ((v :: ws).map escapeCSV)).data.getLast? ≠ some '\n' := by
        rw [hdata, getLast_enc ws v]
        simp
      have hpre := preprocess_id _ hnd1 hh hl
      have hstep : fromCSV (joinSep "\n" ((v :: ws).map escapeCSV)) (some [.strIn "name"]) {} =
          fromCSVWithCols (joinSep "\n" ((v :: ws).map escapeCSV)) nameCols {} := by
        unfold fromCSV
        rw [if_neg (by simp)]
        rw [hpre]
        rfl
      rw [hstep]
      simp only [fromCSVWithCols, show CsvOptions.delim {} = ',' from rfl]
      simp only [csvToArray_enc ws v _ hdata (hww v (List.mem_cons_self v ws))
        (fun w hw => hww w (List.mem_cons_of_mem v hw))]
      simp only [show startIndex {} = 0 from rfl, List.drop_zero]
      simp only [mapRows_single (v :: ws) 0 hww]
  · decide

/-- C1 amended witness: a two-record list whose values contain embedded
delimiters, quotes and a line break round-trips unchanged. -/
theorem claim1_roundtrip_amended_witness :
    fromCSV (toCSV (["A, \"B\"\nC", "x,y"].map fun v => [("name", JsVal.str v)])
        (some [.strIn "name"]) {}) (some [.strIn "name"]) {} =
      .ok (["A, \"B\"\nC", "x,y"].map fun v => [("name", JsVal.str v)]) :=
  claim1_roundtrip_amended.1 ["A, \"B\"\nC", "x,y"] (by decide)
    (by
      intro w hw
      simp only [List.mem_cons, List.not_mem_nil, or_false] at hw
      rcases hw with rfl | rfl
      · exact ⟨by decide, by simp [NoDoubleNL, List.chain'_cons]⟩
      · exact ⟨by decide, by simp [NoDoubleNL, List.chain'_cons]⟩)

end SalsaCSV
